import Mathlib

/-!
# Verification of the Late Acceptance Hill Climbing engine

A shallow embedding of `lahc/_lahc.py` (`LateAcceptanceHillClimber`).

Energies are modelled as rationals (`ℚ`); the opaque user state is a type
parameter `σ`.  The user-supplied `move` is modelled as a function
`ℕ → σ → σ` of the current step counter (each iteration may transform the
state differently, which subsumes the randomized moves of the Python
subclasses), and `energy : σ → ℚ`.  `copy_state` produces an independent
value-equal snapshot, which in a value semantics is the identity, so the
snapshots `prev_state` / `best_state` simply hold the values.

Calls to `self.update(step, step_idle, E)` (the progress reporter) are
recorded in an event list `reports`; the SIGINT flag `user_exit` is
modelled as a boolean schedule `cancel : ℕ → Bool` polled at the loop
boundary, and the unbounded `while` loop is run with explicit fuel.
-/

namespace Lahc

/-- Configuration attributes of `LateAcceptanceHillClimber`
(`steps_min`, `idle_steps_fraction`, `history_length`, `updates_every`). -/
structure Config where
  steps_min : ℕ
  idle_steps_fraction : ℚ
  history_length : ℕ
  updates_every : ℕ
deriving DecidableEq, Repr

/-- The engine attributes live during `run()`: the live state, the snapshot
`prev_state` with its energy `prev_energy`, the best tuple, the counters
`step`, `step_idle` and `trials`, the circular buffer `energy_history`, and
the accumulated `reports` (one `(step, step_idle, E)` triple per
`self.update` call). -/
structure EngineState (σ : Type) where
  state : σ
  prev_state : σ
  prev_energy : ℚ
  best_state : σ
  best_energy : ℚ
  best_step : ℕ
  step : ℕ
  step_idle : ℕ
  energy_history : List ℚ
  trials : ℕ
  reports : List (ℕ × ℕ × ℚ)
deriving DecidableEq, Repr

variable {σ : Type}

/-- `terminate_search` (lines 112-118): `step > steps_min and
step_idle > step * idle_steps_fraction`. -/
def terminate_search (cfg : Config) (es : EngineState σ) : Bool :=
  decide (cfg.steps_min < es.step ∧
    (es.step : ℚ) * cfg.idle_steps_fraction < (es.step_idle : ℚ))

/-- The candidate state produced by `self.move()` at the current step. -/
def candidate (move : ℕ → σ → σ) (es : EngineState σ) : σ :=
  move es.step es.state

/-- `E = self.energy()` of the candidate (line 146). -/
def candE (move : ℕ → σ → σ) (energy : σ → ℚ) (es : EngineState σ) : ℚ :=
  energy (candidate move es)

/-- `self.energy_history[v]` with `v = self.step % self.history_length`
(lines 154-155), read before any update this iteration. -/
def histSlot (cfg : Config) (es : EngineState σ) : ℚ :=
  es.energy_history.getD (es.step % cfg.history_length) 0

/-- One iteration of the `while` loop of `run()` (lines 144-172). -/
def lahcStep (cfg : Config) (move : ℕ → σ → σ) (energy : σ → ℚ)
    (es : EngineState σ) : EngineState σ :=
  let st := candidate move es
  let E := candE move energy es
  let trials := es.trials + 1
  let step_idle := if es.prev_energy ≤ E then es.step_idle + 1 else 0
  let v := es.step % cfg.history_length
  let Hv := histSlot cfg es
  let Efin := if E < Hv ∨ E ≤ es.prev_energy then E else es.prev_energy
  { state := if E < Hv ∨ E ≤ es.prev_energy then st else es.prev_state
    prev_state := if E < Hv ∨ E ≤ es.prev_energy then st else es.prev_state
    prev_energy := Efin
    best_state :=
      if (E < Hv ∨ E ≤ es.prev_energy) ∧ E < es.best_energy then st else es.best_state
    best_energy :=
      if (E < Hv ∨ E ≤ es.prev_energy) ∧ E < es.best_energy then E else es.best_energy
    best_step :=
      if (E < Hv ∨ E ≤ es.prev_energy) ∧ E < es.best_energy then es.step else es.best_step
    step := es.step + 1
    step_idle := step_idle
    energy_history :=
      if Efin < Hv then es.energy_history.set v Efin else es.energy_history
    trials := if trials = cfg.updates_every then 0 else trials
    reports :=
      if trials = cfg.updates_every then es.reports ++ [(es.step + 1, step_idle, Efin)]
      else es.reports }

/-- The setup phase of `run()` (lines 127-142): seed `prev`/`best` with the
initial energy, fill the history with it, and issue the unconditional
`self.update(0, 0, E)` call of line 142. -/
def initState (cfg : Config) (energy : σ → ℚ) (s0 : σ) : EngineState σ :=
  { state := s0
    prev_state := s0
    prev_energy := energy s0
    best_state := s0
    best_energy := energy s0
    best_step := 0
    step := 0
    step_idle := 0
    energy_history := List.replicate cfg.history_length (energy s0)
    trials := 0
    reports := [(0, 0, energy s0)] }

/-- The engine state after `n` iterations of the loop, starting from the
setup state. -/
def esAt (cfg : Config) (move : ℕ → σ → σ) (energy : σ → ℚ) (s0 : σ)
    (n : ℕ) : EngineState σ :=
  (lahcStep cfg move energy)^[n] (initState cfg energy s0)

/-- The guard of the `while` loop (line 144): stop when `terminate_search()`
holds or the `user_exit` flag is up at this boundary. -/
def haltTest (cfg : Config) (cancel : ℕ → Bool) (es : EngineState σ) : Bool :=
  terminate_search cfg es || cancel es.step

/-- The `while` loop of `run()`, driven by explicit fuel. -/
def runAux (cfg : Config) (move : ℕ → σ → σ) (energy : σ → ℚ)
    (cancel : ℕ → Bool) : ℕ → EngineState σ → EngineState σ
  | 0, es => es
  | fuel + 1, es =>
    if haltTest cfg cancel es then es
    else runAux cfg move energy cancel fuel (lahcStep cfg move energy es)

/-- `run()` (lines 120-178): setup, loop, and the returned
`(best_state, best_energy)` pair. -/
def run (cfg : Config) (move : ℕ → σ → σ) (energy : σ → ℚ)
    (cancel : ℕ → Bool) (fuel : ℕ) (s0 : σ) : σ × ℚ :=
  let es := runAux cfg move energy cancel fuel (initState cfg energy s0)
  (es.best_state, es.best_energy)

/-- `__init__` (lines 71-89): take `copy_state(initial_state)` when
`initial_state is not None`, otherwise load from the (truthy, i.e.
non-empty) file name, otherwise raise `ValueError`.  The pickle lookup is
an opaque parameter `load_state_fn`. -/
def lahcInit (copy_state : σ → σ) (load_state_fn : String → σ) :
    Option σ → Option String → Except String σ
  | some s, _ => Except.ok (copy_state s)
  | none, some f =>
    if f = "" then
      Except.error "No valid values supplied for neither initial_state nor load_state"
    else Except.ok (load_state_fn f)
  | none, none =>
    Except.error "No valid values supplied for neither initial_state nor load_state"

/-- Arithmetic mean of a list of rationals (used to state what the reported
telemetry does *not* contain). -/
def listMean (l : List ℚ) : ℚ :=
  l.sum / l.length

@[simp] theorem lahcStep_step (cfg : Config) (move : ℕ → σ → σ) (energy : σ → ℚ)
    (es : EngineState σ) : (lahcStep cfg move energy es).step = es.step + 1 := rfl

theorem esAt_zero (cfg : Config) (move : ℕ → σ → σ) (energy : σ → ℚ) (s0 : σ) :
    esAt cfg move energy s0 0 = initState cfg energy s0 := rfl

theorem esAt_succ (cfg : Config) (move : ℕ → σ → σ) (energy : σ → ℚ) (s0 : σ) (n : ℕ) :
    esAt cfg move energy s0 (n + 1) =
      lahcStep cfg move energy (esAt cfg move energy s0 n) :=
  Function.iterate_succ_apply' _ _ _

theorem esAt_step (cfg : Config) (move : ℕ → σ → σ) (energy : σ → ℚ) (s0 : σ) (n : ℕ) :
    (esAt cfg move energy s0 n).step = n := by
  induction n with
  | zero => rfl
  | succ n ih => rw [esAt_succ, lahcStep_step, ih]

/-! ## Characterization of the fields of one loop iteration -/

section StepLemmas

variable (cfg : Config) (move : ℕ → σ → σ) (energy : σ → ℚ) (es : EngineState σ)

theorem lahcStep_prev_energy :
    (lahcStep cfg move energy es).prev_energy =
      if candE move energy es < histSlot cfg es ∨ candE move energy es ≤ es.prev_energy
      then candE move energy es else es.prev_energy := rfl

theorem lahcStep_state :
    (lahcStep cfg move energy es).state =
      if candE move energy es < histSlot cfg es ∨ candE move energy es ≤ es.prev_energy
      then candidate move es else es.prev_state := rfl

theorem lahcStep_prev_state :
    (lahcStep cfg move energy es).prev_state =
      if candE move energy es < histSlot cfg es ∨ candE move energy es ≤ es.prev_energy
      then candidate move es else es.prev_state := rfl

theorem lahcStep_best_energy :
    (lahcStep cfg move energy es).best_energy =
      if (candE move energy es < histSlot cfg es ∨ candE move energy es ≤ es.prev_energy)
          ∧ candE move energy es < es.best_energy
      then candE move energy es else es.best_energy := rfl

theorem lahcStep_best_state :
    (lahcStep cfg move energy es).best_state =
      if (candE move energy es < histSlot cfg es ∨ candE move energy es ≤ es.prev_energy)
          ∧ candE move energy es < es.best_energy
      then candidate move es else es.best_state := rfl

theorem lahcStep_best_step :
    (lahcStep cfg move energy es).best_step =
      if (candE move energy es < histSlot cfg es ∨ candE move energy es ≤ es.prev_energy)
          ∧ candE move energy es < es.best_energy
      then es.step else es.best_step := rfl

theorem lahcStep_step_idle :
    (lahcStep cfg move energy es).step_idle =
      if es.prev_energy ≤ candE move energy es then es.step_idle + 1 else 0 := rfl

theorem lahcStep_energy_history :
    (lahcStep cfg move energy es).energy_history =
      if (lahcStep cfg move energy es).prev_energy < histSlot cfg es
      then es.energy_history.set (es.step % cfg.history_length)
        (lahcStep cfg move energy es).prev_energy
      else es.energy_history := rfl

theorem lahcStep_trials :
    (lahcStep cfg move energy es).trials =
      if es.trials + 1 = cfg.updates_every then 0 else es.trials + 1 := rfl

theorem lahcStep_reports :
    (lahcStep cfg move energy es).reports =
      if es.trials + 1 = cfg.updates_every
      then es.reports ++
        [(es.step + 1, (lahcStep cfg move energy es).step_idle,
          (lahcStep cfg move energy es).prev_energy)]
      else es.reports := rfl

end StepLemmas

/-! ## Helper lemmas on list slots -/

theorem getD_set_eq (l : List ℚ) (v i : ℕ) (a : ℚ) :
    (l.set v a).getD i 0 = if v = i ∧ v < l.length then a else l.getD i 0 := by
  rw [List.getD_eq_getElem?_getD, List.getD_eq_getElem?_getD, List.getElem?_set]
  by_cases h : v = i
  · subst h
    by_cases hl : v < l.length
    · simp [hl]
    · simp only [hl, and_false, if_true, if_false, and_true, reduceIte,
        List.getElem?_eq_none (Nat.le_of_not_lt hl)]
  · simp [h]

theorem getD_replicate_of_lt {n i : ℕ} (h : i < n) (a : ℚ) :
    (List.replicate n a).getD i 0 = a := by
  rw [List.getD_eq_getElem?_getD, List.getElem?_replicate, if_pos h]
  rfl

/-! ## Invariants preserved by one iteration -/

section Invariants

variable (cfg : Config) (move : ℕ → σ → σ) (energy : σ → ℚ) (es : EngineState σ)

theorem lahcStep_length :
    (lahcStep cfg move energy es).energy_history.length = es.energy_history.length := by
  rw [lahcStep_energy_history]
  split <;> simp

/-- Each slot of the history buffer can only decrease across one iteration. -/
theorem lahcStep_hist_le (i : ℕ) :
    (lahcStep cfg move energy es).energy_history.getD i 0 ≤
      es.energy_history.getD i 0 := by
  rw [lahcStep_energy_history]
  split
  · rename_i h
    rw [getD_set_eq]
    split
    · rename_i hvi
      rw [← hvi.1] at *
      exact le_of_lt h
    · exact le_refl _
  · exact le_refl _

/-- The best energy can only decrease across one iteration. -/
theorem lahcStep_best_le :
    (lahcStep cfg move energy es).best_energy ≤ es.best_energy := by
  rw [lahcStep_best_energy]
  split
  · rename_i h
    exact le_of_lt h.2
  · exact le_refl _

/-- When the best energy changes across one iteration it strictly decreases. -/
theorem lahcStep_best_lt_of_ne
    (h : (lahcStep cfg move energy es).best_energy ≠ es.best_energy) :
    (lahcStep cfg move energy es).best_energy < es.best_energy := by
  rw [lahcStep_best_energy] at *
  by_cases hc : (candE move energy es < histSlot cfg es ∨
      candE move energy es ≤ es.prev_energy) ∧ candE move energy es < es.best_energy
  · rw [if_pos hc]
    exact hc.2
  · rw [if_neg hc] at h
    exact absurd rfl h

/-- The lower-bound invariant of the best energy. -/
def Inv (es : EngineState σ) : Prop :=
  es.best_energy ≤ es.prev_energy ∧
    ∀ i < es.energy_history.length, es.best_energy ≤ es.energy_history.getD i 0

theorem lahcStep_best_le_prev (h1 : es.best_energy ≤ es.prev_energy) :
    (lahcStep cfg move energy es).best_energy ≤
      (lahcStep cfg move energy es).prev_energy := by
  rw [lahcStep_best_energy, lahcStep_prev_energy]
  by_cases hacc : candE move energy es < histSlot cfg es ∨
      candE move energy es ≤ es.prev_energy
  · by_cases himp : candE move energy es < es.best_energy
    · rw [if_pos ⟨hacc, himp⟩, if_pos hacc]
    · rw [if_neg fun hh => himp hh.2, if_pos hacc]
      exact le_of_not_lt himp
  · rw [if_neg fun hh => hacc hh.1, if_neg hacc]
    exact h1

theorem lahcStep_inv (h : Inv es) : Inv (lahcStep cfg move energy es) := by
  obtain ⟨h1, h2⟩ := h
  refine ⟨lahcStep_best_le_prev cfg move energy es h1, ?_⟩
  intro i hi
  rw [lahcStep_length] at hi
  rw [lahcStep_energy_history]
  split
  · rename_i hwr
    rw [getD_set_eq]
    split
    · exact lahcStep_best_le_prev cfg move energy es h1
    · exact le_trans (lahcStep_best_le cfg move energy es) (h2 i hi)
  · exact le_trans (lahcStep_best_le cfg move energy es) (h2 i hi)

theorem initState_inv (s0 : σ) : Inv (initState cfg energy s0) := by
  refine ⟨le_refl _, ?_⟩
  intro i hi
  simp only [initState, List.length_replicate] at hi ⊢
  rw [getD_replicate_of_lt hi]

theorem esAt_inv (s0 : σ) (n : ℕ) : Inv (esAt cfg move energy s0 n) := by
  induction n with
  | zero => exact initState_inv cfg energy s0
  | succ n ih => rw [esAt_succ]; exact lahcStep_inv cfg move energy _ ih

theorem esAt_length (s0 : σ) (n : ℕ) :
    (esAt cfg move energy s0 n).energy_history.length = cfg.history_length := by
  induction n with
  | zero => simp [esAt_zero, initState]
  | succ n ih => rw [esAt_succ, lahcStep_length, ih]

theorem esAt_best_antitone (s0 : σ) {m n : ℕ} (h : m ≤ n) :
    (esAt cfg move energy s0 n).best_energy ≤ (esAt cfg move energy s0 m).best_energy := by
  induction n with
  | zero => rw [Nat.le_zero.mp h]
  | succ n ih =>
    rcases Nat.lt_or_ge m (n + 1) with hm | hm
    · rw [esAt_succ]
      exact le_trans (lahcStep_best_le cfg move energy _) (ih (Nat.lt_succ_iff.mp hm))
    · rw [Nat.le_antisymm h hm]

theorem esAt_hist_antitone (s0 : σ) {m n : ℕ} (h : m ≤ n) (i : ℕ) :
    (esAt cfg move energy s0 n).energy_history.getD i 0 ≤
      (esAt cfg move energy s0 m).energy_history.getD i 0 := by
  induction n with
  | zero => rw [Nat.le_zero.mp h]
  | succ n ih =>
    rcases Nat.lt_or_ge m (n + 1) with hm | hm
    · rw [esAt_succ]
      exact le_trans (lahcStep_hist_le cfg move energy _ i) (ih (Nat.lt_succ_iff.mp hm))
    · rw [Nat.le_antisymm h hm]

end Invariants

/-! ## The loop structure of run() -/

/-- `runAux` performs some number `k ≤ fuel` of iterations: no iteration
begins at or after a boundary at which the guard fires, and if fuel
remains the guard fired at the final state. -/
theorem runAux_spec (cfg : Config) (move : ℕ → σ → σ) (energy : σ → ℚ)
    (cancel : ℕ → Bool) (fuel : ℕ) (es : EngineState σ) :
    ∃ k ≤ fuel,
      runAux cfg move energy cancel fuel es = (lahcStep cfg move energy)^[k] es ∧
      (∀ j < k, haltTest cfg cancel ((lahcStep cfg move energy)^[j] es) = false) ∧
      (k < fuel → haltTest cfg cancel ((lahcStep cfg move energy)^[k] es) = true) := by
  induction fuel generalizing es with
  | zero =>
    exact ⟨0, le_refl 0, rfl, fun j hj => absurd hj (Nat.not_lt_zero j),
      fun h => absurd h (Nat.lt_irrefl 0)⟩
  | succ fuel ih =>
    by_cases h : haltTest cfg cancel es = true
    · refine ⟨0, Nat.zero_le _, ?_, fun j hj => absurd hj (Nat.not_lt_zero j), fun _ => h⟩
      simp [runAux, h]
    · obtain ⟨k, hk, heq, hnone, hlast⟩ := ih (lahcStep cfg move energy es)
      refine ⟨k + 1, Nat.succ_le_succ hk, ?_, ?_, ?_⟩
      · rw [runAux, if_neg h, heq, Function.iterate_succ_apply]
      · intro j hj
        cases j with
        | zero => exact Bool.eq_false_iff.mpr h
        | succ j =>
          rw [Function.iterate_succ_apply]
          exact hnone j (Nat.lt_of_succ_lt_succ hj)
      · intro hlt
        rw [Function.iterate_succ_apply]
        exact hlast (Nat.lt_of_succ_lt_succ hlt)

/-! ## Concrete fixtures used by the witnesses and counterexamples -/

/-- A small configuration: `steps_min = 100`, `idle_steps_fraction = 1/50`,
`history_length = 2`, `updates_every = 100`. -/
def cfgA : Config := ⟨100, 1/50, 2, 100⟩

/-- As `cfgA` but with a single history slot. -/
def cfgB : Config := ⟨100, 1/50, 1, 100⟩

/-- A move that always proposes the state `9`. -/
def mv9 : ℕ → ℚ → ℚ := fun _ _ => 9

/-- A move that always proposes the state `12`. -/
def mv12 : ℕ → ℚ → ℚ := fun _ _ => 12

/-- The identity energy on rational states. -/
def enId : ℚ → ℚ := fun s => s

/-- An engine state mid-run whose candidate (under `mv9`/`enId`) is
strictly better than both the history slot and the previous energy. -/
def esA : EngineState ℚ :=
  { state := 10, prev_state := 10, prev_energy := 10
    best_state := 10, best_energy := 10, best_step := 0
    step := 0, step_idle := 0
    energy_history := [10, 10], trials := 0, reports := [] }

/-- An engine state mid-run whose candidate (under `mv12`/`enId`) is
rejected, while `prev_energy` still improves on the history slot. -/
def esC : EngineState ℚ :=
  { state := 5, prev_state := 5, prev_energy := 5
    best_state := 5, best_energy := 5, best_step := 0
    step := 0, step_idle := 0
    energy_history := [10, 10], trials := 0, reports := [] }

/-! ## The claims -/

/-- C1: in every iteration the candidate with energy `Ec` is accepted iff
`Ec < H[s mod L]` (read before any update this iteration) or
`Ec <= previous_energy`; on acceptance the engine sets `previous_accepted`
to a copy of the live state and `previous_energy = Ec`, and replaces the
best tuple exactly when `Ec < best_energy`. -/
theorem lahcStep_acceptance (cfg : Config) (move : ℕ → σ → σ) (energy : σ → ℚ)
    (es : EngineState σ) :
    ((candE move energy es < histSlot cfg es ∨ candE move energy es ≤ es.prev_energy) →
      (lahcStep cfg move energy es).prev_state = candidate move es ∧
      (lahcStep cfg move energy es).state = candidate move es ∧
      (lahcStep cfg move energy es).prev_energy = candE move energy es ∧
      (candE move energy es < es.best_energy →
        (lahcStep cfg move energy es).best_state = candidate move es ∧
        (lahcStep cfg move energy es).best_energy = candE move energy es ∧
        (lahcStep cfg move energy es).best_step = es.step) ∧
      (es.best_energy ≤ candE move energy es →
        (lahcStep cfg move energy es).best_state = es.best_state ∧
        (lahcStep cfg move energy es).best_energy = es.best_energy ∧
        (lahcStep cfg move energy es).best_step = es.best_step)) ∧
    (¬(candE move energy es < histSlot cfg es ∨ candE move energy es ≤ es.prev_energy) →
      (lahcStep cfg move energy es).prev_state = es.prev_state ∧
      (lahcStep cfg move energy es).prev_energy = es.prev_energy ∧
      (lahcStep cfg move energy es).best_state = es.best_state ∧
      (lahcStep cfg move energy es).best_energy = es.best_energy ∧
      (lahcStep cfg move energy es).best_step = es.best_step) := by
  constructor
  · intro hacc
    refine ⟨?_, ?_, ?_, ?_, ?_⟩
    · rw [lahcStep_prev_state, if_pos hacc]
    · rw [lahcStep_state, if_pos hacc]
    · rw [lahcStep_prev_energy, if_pos hacc]
    · intro himp
      exact ⟨by rw [lahcStep_best_state, if_pos ⟨hacc, himp⟩],
        by rw [lahcStep_best_energy, if_pos ⟨hacc, himp⟩],
        by rw [lahcStep_best_step, if_pos ⟨hacc, himp⟩]⟩
    · intro hni
      have hno : ¬((candE move energy es < histSlot cfg es ∨
          candE move energy es ≤ es.prev_energy) ∧
          candE move energy es < es.best_energy) :=
        fun hh => absurd hh.2 (not_lt.mpr hni)
      exact ⟨by rw [lahcStep_best_state, if_neg hno],
        by rw [lahcStep_best_energy, if_neg hno],
        by rw [lahcStep_best_step, if_neg hno]⟩
  · intro hrej
    have hno : ¬((candE move energy es < histSlot cfg es ∨
        candE move energy es ≤ es.prev_energy) ∧
        candE move energy es < es.best_energy) := fun hh => hrej hh.1
    exact ⟨by rw [lahcStep_prev_state, if_neg hrej],
      by rw [lahcStep_prev_energy, if_neg hrej],
      by rw [lahcStep_best_state, if_neg hno],
      by rw [lahcStep_best_energy, if_neg hno],
      by rw [lahcStep_best_step, if_neg hno]⟩

/-- Witness for C1: a concrete accepted, best-improving candidate. -/
theorem lahcStep_acceptance_witness :
    (lahcStep cfgA mv9 enId esA).prev_energy = candE mv9 enId esA ∧
    (lahcStep cfgA mv9 enId esA).best_energy = candE mv9 enId esA ∧
    (lahcStep cfgA mv9 enId esA).best_step = esA.step := by
  have h := (lahcStep_acceptance cfgA mv9 enId esA).1 (by decide)
  exact ⟨h.2.2.1, (h.2.2.2.1 (by decide)).2.1, (h.2.2.2.1 (by decide)).2.2⟩

/-- C2: the default termination predicate holds exactly when
`step > steps_min` and `step_idle > step * idle_steps_fraction`;
`step_idle` is incremented when `Ec >= previous_energy` (against the
pre-decision `previous_energy`) and reset to `0` otherwise; and the loop
of `run()` continues exactly until the predicate or cancellation holds. -/
theorem terminate_search_spec (cfg : Config) (move : ℕ → σ → σ) (energy : σ → ℚ)
    (cancel : ℕ → Bool) (es : EngineState σ) :
    (terminate_search cfg es = true ↔
      (cfg.steps_min < es.step ∧
        (es.step : ℚ) * cfg.idle_steps_fraction < (es.step_idle : ℚ))) ∧
    ((lahcStep cfg move energy es).step_idle =
      if es.prev_energy ≤ candE move energy es then es.step_idle + 1 else 0) ∧
    (∀ fuel (s0 : σ), ∃ k ≤ fuel,
      runAux cfg move energy cancel fuel (initState cfg energy s0) =
        esAt cfg move energy s0 k ∧
      (∀ j < k,
        terminate_search cfg (esAt cfg move energy s0 j) = false ∧ cancel j = false) ∧
      (k < fuel →
        (terminate_search cfg (esAt cfg move energy s0 k) = true ∨ cancel k = true))) := by
  refine ⟨by simp [terminate_search], lahcStep_step_idle cfg move energy es, ?_⟩
  intro fuel s0
  obtain ⟨k, hk, heq, hnone, hlast⟩ :=
    runAux_spec cfg move energy cancel fuel (initState cfg energy s0)
  refine ⟨k, hk, heq, ?_, ?_⟩
  · intro j hj
    have h := hnone j hj
    rw [haltTest, Bool.or_eq_false_iff] at h
    have hc : cancel ((esAt cfg move energy s0 j).step) = false := h.2
    rw [esAt_step] at hc
    exact ⟨h.1, hc⟩
  · intro hlt
    have h := hlast hlt
    rw [haltTest, Bool.or_eq_true] at h
    rcases h with h | h
    · exact Or.inl h
    · have hc : cancel ((esAt cfg move energy s0 k).step) = true := h
      rw [esAt_step] at hc
      exact Or.inr hc

/-- Witness for C2: a concrete state on which the default termination
predicate fires. -/
theorem terminate_search_spec_witness :
    terminate_search cfgA
      ({ state := 0, prev_state := 0, prev_energy := 0
         best_state := 0, best_energy := 0, best_step := 0
         step := 400, step_idle := 9
         energy_history := [0, 0], trials := 0, reports := [] } : EngineState ℚ) = true := by
  exact (terminate_search_spec cfgA mv9 enId (fun _ => false) _).1.mpr (by norm_num [cfgA])

/-- C3: throughout any run the history buffer has exactly `history_length`
slots, every slot starts at the initial energy, and no slot value ever
increases: whenever a slot changes it strictly decreases. -/
theorem energy_history_invariant (cfg : Config) (move : ℕ → σ → σ) (energy : σ → ℚ)
    (s0 : σ) :
    (esAt cfg move energy s0 0).energy_history =
      List.replicate cfg.history_length (energy s0) ∧
    (∀ n, (esAt cfg move energy s0 n).energy_history.length = cfg.history_length) ∧
    (∀ n i, (esAt cfg move energy s0 (n + 1)).energy_history.getD i 0 ≤
      (esAt cfg move energy s0 n).energy_history.getD i 0) ∧
    (∀ n i, (esAt cfg move energy s0 (n + 1)).energy_history.getD i 0 ≠
        (esAt cfg move energy s0 n).energy_history.getD i 0 →
      (esAt cfg move energy s0 (n + 1)).energy_history.getD i 0 <
        (esAt cfg move energy s0 n).energy_history.getD i 0) := by
  have hle : ∀ n i, (esAt cfg move energy s0 (n + 1)).energy_history.getD i 0 ≤
      (esAt cfg move energy s0 n).energy_history.getD i 0 := by
    intro n i
    rw [esAt_succ]
    exact lahcStep_hist_le cfg move energy _ i
  exact ⟨rfl, esAt_length cfg move energy s0, hle,
    fun n i h => lt_of_le_of_ne (hle n i) h⟩

/-- Witness for C3: after one concrete iteration the single slot has
strictly decreased. -/
theorem energy_history_invariant_witness :
    (esAt cfgB mv9 enId (10 : ℚ) 1).energy_history.getD 0 0 <
      (esAt cfgB mv9 enId (10 : ℚ) 0).energy_history.getD 0 0 :=
  (energy_history_invariant cfgB mv9 enId (10 : ℚ)).2.2.2 0 0 (by decide)

/-- C4: on rejection the live state is restored to the previously accepted
state, the effective energy becomes the unchanged `previous_energy`, and
the history slot `s mod L` is updated (replaced iff smaller) with this
post-decision energy, not the raw candidate energy. -/
theorem reject_rollback (cfg : Config) (move : ℕ → σ → σ) (energy : σ → ℚ)
    (es : EngineState σ)
    (h : ¬(candE move energy es < histSlot cfg es ∨
      candE move energy es ≤ es.prev_energy)) :
    (lahcStep cfg move energy es).state = es.prev_state ∧
    (lahcStep cfg move energy es).prev_energy = es.prev_energy ∧
    (lahcStep cfg move energy es).energy_history =
      (if es.prev_energy < histSlot cfg es
       then es.energy_history.set (es.step % cfg.history_length) es.prev_energy
       else es.energy_history) := by
  have hE : (lahcStep cfg move energy es).prev_energy = es.prev_energy := by
    rw [lahcStep_prev_energy, if_neg h]
  refine ⟨by rw [lahcStep_state, if_neg h], hE, ?_⟩
  rw [lahcStep_energy_history, hE]

/-- Witness for C4: a concrete rejected candidate; the slot is written with
the retained `previous_energy` (5), not the candidate energy (12). -/
theorem reject_rollback_witness :
    (lahcStep cfgA mv12 enId esC).state = esC.prev_state ∧
    (lahcStep cfgA mv12 enId esC).prev_energy = esC.prev_energy ∧
    (lahcStep cfgA mv12 enId esC).energy_history =
      (if esC.prev_energy < histSlot cfgA esC
       then esC.energy_history.set (esC.step % cfgA.history_length) esC.prev_energy
       else esC.energy_history) :=
  reject_rollback cfgA mv12 enId esC (by decide)

/-- C5: the best energy never increases during `run()`, strictly decreases
at each replacement, always satisfies `best_energy ≤ energy(initial_state)`,
and so does the returned best energy. -/
theorem best_energy_monotone (cfg : Config) (move : ℕ → σ → σ) (energy : σ → ℚ)
    (s0 : σ) :
    (∀ n, (esAt cfg move energy s0 (n + 1)).best_energy ≤
      (esAt cfg move energy s0 n).best_energy) ∧
    (∀ n, (esAt cfg move energy s0 n).best_energy ≤ energy s0) ∧
    (∀ n, (esAt cfg move energy s0 (n + 1)).best_energy ≠
        (esAt cfg move energy s0 n).best_energy →
      (esAt cfg move energy s0 (n + 1)).best_energy <
        (esAt cfg move energy s0 n).best_energy) ∧
    (∀ (cancel : ℕ → Bool) (fuel : ℕ),
      (run cfg move energy cancel fuel s0).2 ≤ energy s0) := by
  refine ⟨?_, ?_, ?_, ?_⟩
  · intro n
    rw [esAt_succ]
    exact lahcStep_best_le cfg move energy _
  · intro n
    exact esAt_best_antitone cfg move energy s0 (Nat.zero_le n)
  · intro n h
    rw [esAt_succ] at h ⊢
    exact lahcStep_best_lt_of_ne cfg move energy _ h
  · intro cancel fuel
    obtain ⟨k, _, heq, _, _⟩ :=
      runAux_spec cfg move energy cancel fuel (initState cfg energy s0)
    show (runAux cfg move energy cancel fuel (initState cfg energy s0)).best_energy ≤
      energy s0
    rw [heq]
    exact esAt_best_antitone cfg move energy s0 (Nat.zero_le k)

/-- Witness for C5: a concrete strict decrease of the best energy. -/
theorem best_energy_monotone_witness :
    (esAt cfgB mv9 enId (10 : ℚ) 1).best_energy <
      (esAt cfgB mv9 enId (10 : ℚ) 0).best_energy :=
  (best_energy_monotone cfgB mv9 enId (10 : ℚ)).2.2.1 0 (by decide)

/-- C6 counterexample: supplying *both* `initial_state` and `load_state` is
not an error — `__init__` takes the `initial_state is not None` branch and
silently ignores the load source. -/
theorem init_both_sources_ok :
    lahcInit (fun s : ℚ => s) (fun _ => 0) (some 1) (some "f") = Except.ok 1 := rfl

/-- C6 (amended): supplying neither source is a configuration error raised
before any engine attribute is set, and so is a falsy (empty) load source
alone; supplying `initial_state` constructs the engine from a copy of it
regardless of any load source, which is then ignored; supplying only a
non-empty load source loads from it. -/
theorem init_exactly_one_source (copy_state : σ → σ) (load_state_fn : String → σ) :
    (∃ msg, lahcInit copy_state load_state_fn none none = Except.error msg) ∧
    (∀ (s : σ) (l : Option String),
      lahcInit copy_state load_state_fn (some s) l = Except.ok (copy_state s)) ∧
    (∀ f : String, f ≠ "" →
      lahcInit copy_state load_state_fn none (some f) = Except.ok (load_state_fn f)) ∧
    (∃ msg, lahcInit copy_state load_state_fn none (some "") = Except.error msg) := by
  refine ⟨⟨"No valid values supplied for neither initial_state nor load_state", rfl⟩,
    fun s l => rfl, fun f hf => ?_,
    ⟨"No valid values supplied for neither initial_state nor load_state",
      by simp [lahcInit]⟩⟩
  simp [lahcInit, hf]

/-- Witness for C6 (amended): loading from a concrete non-empty file name. -/
theorem init_exactly_one_source_witness :
    lahcInit (fun s : ℚ => s) (fun _ => (0 : ℚ)) none (some "a.state") =
      Except.ok 0 :=
  (init_exactly_one_source _ _).2.2.1 "a.state" (by decide)

/-- A configuration that reports on every iteration
(`updates_every = 1`). -/
def cfgR : Config := ⟨100, 1/50, 2, 1⟩

/-- A move that always proposes the state `3`. -/
def mv3 : ℕ → ℚ → ℚ := fun _ _ => 3

/-- An engine state with history buffer `[10, 10]` (mean 10). -/
def esH1 : EngineState ℚ :=
  { state := 10, prev_state := 10, prev_energy := 10
    best_state := 10, best_energy := 10, best_step := 0
    step := 0, step_idle := 0
    energy_history := [10, 10], trials := 0, reports := [] }

/-- As `esH1` but with history buffer `[10, 20]` (mean 15). -/
def esH2 : EngineState ℚ :=
  { state := 10, prev_state := 10, prev_energy := 10
    best_state := 10, best_energy := 10, best_step := 0
    step := 0, step_idle := 0
    energy_history := [10, 20], trials := 0, reports := [] }

/-- C7 counterexample: two engines whose history buffers have different
means go through an iteration that improves a slot and invoke the reporter
with *identical* telemetry, so the telemetry contains no history mean (nor
variance), and no running statistics are maintained on slot improvement. -/
theorem reporter_no_history_mean :
    listMean esH1.energy_history ≠ listMean esH2.energy_history ∧
    (lahcStep cfgR mv3 enId esH1).energy_history ≠ esH1.energy_history ∧
    (lahcStep cfgR mv3 enId esH2).energy_history ≠ esH2.energy_history ∧
    (lahcStep cfgR mv3 enId esH1).reports = (lahcStep cfgR mv3 enId esH2).reports := by
  refine ⟨?_, by decide, by decide, by decide⟩
  norm_num [listMean, esH1, esH2]

/-- C7 (amended): when a slot value is improved the engine only replaces
that slot — it maintains no running mean or variance of the buffer — and
the periodic reporter, when due, is invoked with exactly
`(step, idle_steps, post-decision energy)`. -/
theorem reporter_telemetry (cfg : Config) (move : ℕ → σ → σ) (energy : σ → ℚ)
    (es : EngineState σ) :
    ((lahcStep cfg move energy es).energy_history = es.energy_history ∨
      (lahcStep cfg move energy es).energy_history =
        es.energy_history.set (es.step % cfg.history_length)
          (lahcStep cfg move energy es).prev_energy) ∧
    ((lahcStep cfg move energy es).reports =
      if es.trials + 1 = cfg.updates_every
      then es.reports ++
        [(es.step + 1, (lahcStep cfg move energy es).step_idle,
          (lahcStep cfg move energy es).prev_energy)]
      else es.reports) := by
  refine ⟨?_, lahcStep_reports cfg move energy es⟩
  rw [lahcStep_energy_history]
  split
  · exact Or.inr rfl
  · exact Or.inl rfl

/-- With `updates_every = 0` the trial counter never reaches the reporting
threshold, so the loop adds no report after the unconditional step-0 one. -/
theorem reports_of_updates_zero (cfg : Config) (move : ℕ → σ → σ)
    (energy : σ → ℚ) (s0 : σ) (h : cfg.updates_every = 0) (n : ℕ) :
    (esAt cfg move energy s0 n).reports = [(0, 0, energy s0)] := by
  induction n with
  | zero => rfl
  | succ n ih =>
    rw [esAt_succ, lahcStep_reports, ih, if_neg]
    rw [h]
    exact Nat.succ_ne_zero _

/-- A configuration with reporting disabled (`updates_every = 0`). -/
def cfgZ : Config := ⟨5, 0, 1, 0⟩

/-- C8 counterexample: with `updates_every = 0` a run still invokes the
reporter — the unconditional step-0 progress report of line 142 — so
`updates_every = 0` does not suppress the step-0 report. -/
theorem updates_zero_still_reports :
    (runAux cfgZ mv3 enId (fun _ => false) 3 (initState cfgZ enId 10)).reports =
      [(0, 0, 10)] := by
  obtain ⟨k, _, heq, _, _⟩ :=
    runAux_spec cfgZ mv3 enId (fun _ => false) 3 (initState cfgZ enId 10)
  rw [heq]
  exact reports_of_updates_zero cfgZ mv3 enId 10 rfl k

/-- C8 (amended): the step-0 report is emitted unconditionally at setup;
with `updates_every = 0` the loop adds no further report (so over a whole
run the reporter is invoked exactly once, at step 0); otherwise the
reporter fires exactly when the trial counter — incremented every
iteration, accepted or not — reaches `updates_every`, and then resets. -/
theorem updates_every_spec (cfg : Config) (move : ℕ → σ → σ) (energy : σ → ℚ)
    (s0 : σ) :
    ((initState cfg energy s0).reports = [(0, 0, energy s0)]) ∧
    (cfg.updates_every = 0 →
      ∀ n, (esAt cfg move energy s0 n).reports = [(0, 0, energy s0)]) ∧
    (∀ es : EngineState σ,
      (lahcStep cfg move energy es).reports =
        if es.trials + 1 = cfg.updates_every
        then es.reports ++
          [(es.step + 1, (lahcStep cfg move energy es).step_idle,
            (lahcStep cfg move energy es).prev_energy)]
        else es.reports) ∧
    (∀ es : EngineState σ,
      (lahcStep cfg move energy es).trials =
        if es.trials + 1 = cfg.updates_every then 0 else es.trials + 1) :=
  ⟨rfl, fun h n => reports_of_updates_zero cfg move energy s0 h n,
    fun es => lahcStep_reports cfg move energy es,
    fun es => lahcStep_trials cfg move energy es⟩

/-- Witness for C8 (amended): two loop iterations with reporting disabled
leave exactly the step-0 report. -/
theorem updates_every_spec_witness :
    (esAt cfgZ mv3 enId (10 : ℚ) 2).reports = [(0, 0, enId 10)] :=
  (updates_every_spec cfgZ mv3 enId (10 : ℚ)).2.1 rfl 2

/-- C9: once the cancellation flag is up at boundary step `j`, no iteration
at or past `j` begins, and `run()` still returns the normal
`(best_state, best_energy)` pair of the state it reached. -/
theorem cancellation_returns_best (cfg : Config) (move : ℕ → σ → σ)
    (energy : σ → ℚ) (cancel : ℕ → Bool) (s0 : σ) (fuel j : ℕ)
    (hj : cancel j = true) :
    ∃ k ≤ fuel, k ≤ j ∧
      runAux cfg move energy cancel fuel (initState cfg energy s0) =
        esAt cfg move energy s0 k ∧
      run cfg move energy cancel fuel s0 =
        ((esAt cfg move energy s0 k).best_state,
          (esAt cfg move energy s0 k).best_energy) := by
  obtain ⟨k, hk, heq, hnone, _⟩ :=
    runAux_spec cfg move energy cancel fuel (initState cfg energy s0)
  refine ⟨k, hk, ?_, heq, ?_⟩
  · by_contra hkj
    push_neg at hkj
    have h := hnone j hkj
    rw [haltTest, Bool.or_eq_false_iff] at h
    have hc : cancel ((esAt cfg move energy s0 j).step) = false := h.2
    rw [esAt_step] at hc
    rw [hc] at hj
    exact Bool.false_ne_true hj
  · show ((runAux cfg move energy cancel fuel (initState cfg energy s0)).best_state,
        (runAux cfg move energy cancel fuel (initState cfg energy s0)).best_energy) =
      ((esAt cfg move energy s0 k).best_state, (esAt cfg move energy s0 k).best_energy)
    rw [heq]
    rfl

/-- Witness for C9: with the flag permanently up the loop performs zero
iterations and `run()` returns the setup state's best pair. -/
theorem cancellation_returns_best_witness :
    run cfgA mv9 enId (fun _ => true) 5 (10 : ℚ) =
      ((esAt cfgA mv9 enId (10 : ℚ) 0).best_state,
        (esAt cfgA mv9 enId (10 : ℚ) 0).best_energy) := by
  obtain ⟨k, _, hk0, _, hrun⟩ :=
    cancellation_returns_best cfgA mv9 enId (fun _ => true) (10 : ℚ) 5 0 rfl
  rw [Nat.le_zero.mp hk0] at hrun
  exact hrun

/-- C10: at every point `best_energy` is a lower bound on the trajectory:
it is below the previously accepted energy and below every history slot,
at the current and at every earlier point of the run. -/
theorem best_energy_lower_bound (cfg : Config) (move : ℕ → σ → σ)
    (energy : σ → ℚ) (s0 : σ) (m n : ℕ) (hmn : m ≤ n) :
    (esAt cfg move energy s0 n).best_energy ≤
      (esAt cfg move energy s0 m).prev_energy ∧
    ∀ i < cfg.history_length,
      (esAt cfg move energy s0 n).best_energy ≤
        (esAt cfg move energy s0 m).energy_history.getD i 0 := by
  have hinv := esAt_inv cfg move energy s0 m
  have hb := esAt_best_antitone cfg move energy s0 hmn
  constructor
  · exact le_trans hb hinv.1
  · intro i hi
    have hlen : i < (esAt cfg move energy s0 m).energy_history.length := by
      rw [esAt_length]
      exact hi
    exact le_trans hb (hinv.2 i hlen)

/-- Witness for C10: after two concrete iterations the best energy is below
the slot written at step one. -/
theorem best_energy_lower_bound_witness :
    (esAt cfgB mv9 enId (10 : ℚ) 2).best_energy ≤
      (esAt cfgB mv9 enId (10 : ℚ) 1).energy_history.getD 0 0 :=
  (best_energy_lower_bound cfgB mv9 enId (10 : ℚ) 1 2 (by decide)).2 0 (by decide)

end Lahc
